import Mathlib

/-!
Verification of the TheraReach tic-tac-toe robot (`src/TTTRobot.py`).

The game state is a 3x3 numpy integer array `board` with cell values
0 = empty, 1 = player (blue), 2 = robot (red).  We embed it as a function
`Fin 3 → Fin 3 → Nat`.  The decision routines `check_win`, `check_draw` and
`get_robot_move` are embedded from the source; `get_robot_move` mutates the
shared board during its win/block lookahead and reverts each trial placement,
so it is embedded in state-passing style, returning the final board together
with the chosen move.  The `random.shuffle` calls on the corner and edge
lists are modelled by passing the shuffled lists as parameters.
-/

set_option autoImplicit false

namespace TTTRobot

/-- A 3x3 board of numpy ints: 0 = empty, 1 = player, 2 = robot. -/
def Board : Type := Fin 3 → Fin 3 → Nat

instance : DecidableEq Board := by
  unfold Board
  infer_instance

/-- Build a board from a list-of-lists literal, as the spec scenarios write them. -/
def mkBoard (rows : List (List Nat)) : Board :=
  fun r c => ((rows.getD r []).getD c 0)

/-- The all-empty board (`np.zeros((3, 3))`). -/
def emptyBoard : Board := fun _ _ => 0

/-- Writing one cell of the board (`board[row, col] = v`). -/
def setCell (b : Board) (r c : Fin 3) (v : Nat) : Board :=
  fun i j => if i = r then (if j = c then v else b i j) else b i j

/-- `np.all(board[row, :] == player)` for one row. -/
def rowAll (b : Board) (r : Fin 3) (p : Nat) : Bool :=
  b r 0 == p && b r 1 == p && b r 2 == p

/-- `np.all(board[:, col] == player)` for one column. -/
def colAll (b : Board) (c : Fin 3) (p : Nat) : Bool :=
  b 0 c == p && b 1 c == p && b 2 c == p

/-- `check_win(board, player)`: rows, then columns, then the two diagonals. -/
def check_win (b : Board) (p : Nat) : Bool :=
  rowAll b 0 p || rowAll b 1 p || rowAll b 2 p ||
  colAll b 0 p || colAll b 1 p || colAll b 2 p ||
  (b 0 0 == p && b 1 1 == p && b 2 2 == p) ||
  (b 0 2 == p && b 1 1 == p && b 2 0 == p)

/-- `check_draw(board)`: `0 not in board`. -/
def check_draw (b : Board) : Bool :=
  decide (∀ r c : Fin 3, b r c ≠ 0)

/-- The nine cells in the row-major order of the nested `for row / for col` loops. -/
def cells : List (Fin 3 × Fin 3) :=
  [(0, 0), (0, 1), (0, 2), (1, 0), (1, 1), (1, 2), (2, 0), (2, 1), (2, 2)]

/-- The corner list of `get_robot_move` before shuffling. -/
def cornerList : List (Fin 3 × Fin 3) := [(0, 0), (0, 2), (2, 0), (2, 2)]

/-- The edge list of `get_robot_move` before shuffling. -/
def edgeList : List (Fin 3 × Fin 3) := [(0, 1), (1, 0), (1, 2), (2, 1)]

/-- One lookahead pass of `get_robot_move`: scan the given cells in order; at
each empty cell place `mark`, test `check_win`, and revert the trial placement
before returning or moving on.  The board is threaded explicitly, mirroring the
in-place mutation of the shared numpy array. -/
def scanTrial (mark : Nat) : Board → List (Fin 3 × Fin 3) → Board × Option (Fin 3 × Fin 3)
  | b, [] => (b, none)
  | b, (r, c) :: rest =>
    if b r c = 0 then
      let b1 := setCell b r c mark
      if check_win b1 mark then (setCell b1 r c 0, some (r, c))
      else scanTrial mark (setCell b1 r c 0) rest
    else scanTrial mark b rest

/-- `get_robot_move()`: win, block, center, shuffled corners, shuffled edges.
`corners` and `edges` are the outcomes of the two `random.shuffle` calls.
Returns the board after all trial placements together with the move; the
Python function falls off the end (returns `None`) when no tier fires. -/
def get_robot_move (b : Board) (corners edges : List (Fin 3 × Fin 3)) :
    Board × Option (Fin 3 × Fin 3) :=
  match scanTrial 2 b cells with
  | (b1, some rc) => (b1, some rc)
  | (b1, none) =>
    match scanTrial 1 b1 cells with
    | (b2, some rc) => (b2, some rc)
    | (b2, none) =>
      if b2 1 1 = 0 then (b2, some (1, 1))
      else
        match corners.find? (fun rc => b2 rc.1 rc.2 == 0) with
        | some rc => (b2, some rc)
        | none =>
          match edges.find? (fun rc => b2 rc.1 rc.2 == 0) with
          | some rc => (b2, some rc)
          | none => (b2, none)

/-- The predicate tested by one lookahead pass: the cell is empty and placing
`mark` there wins for `mark`.  Used to state what `scanTrial` computes. -/
def trialPred (b : Board) (mark : Nat) (rc : Fin 3 × Fin 3) : Bool :=
  (b rc.1 rc.2 == 0) && check_win (setCell b rc.1 rc.2 mark) mark

/-- The pure value computed by `get_robot_move` (proved below to coincide with
the state-passing embedding): win, block, center, first empty corner of the
shuffled corner list, first empty edge of the shuffled edge list. -/
def choose_move (b : Board) (corners edges : List (Fin 3 × Fin 3)) :
    Option (Fin 3 × Fin 3) :=
  match cells.find? (trialPred b 2) with
  | some rc => some rc
  | none =>
    match cells.find? (trialPred b 1) with
    | some rc => some rc
    | none =>
      if b 1 1 = 0 then some (1, 1)
      else
        match corners.find? (fun rc => b rc.1 rc.2 == 0) with
        | some rc => some rc
        | none =>
          match edges.find? (fun rc => b rc.1 rc.2 == 0) with
          | some rc => some rc
          | none => none

/-! ### Piece inventory (`get_next_available_block`)

`red_blocks_used` / `blue_blocks_used` are lists of five booleans; the
function scans `enumerate(blocks_used)` for the first unused entry, marks it
used in place, and returns its 1-based index, or `None` when all are used.
The embedding returns the updated flag list together with the result. -/

def get_next_available_block_aux : Nat → List Bool → List Bool × Option Nat
  | _, [] => ([], none)
  | i, used :: rest =>
    if used then
      (used :: (get_next_available_block_aux (i + 1) rest).1,
       (get_next_available_block_aux (i + 1) rest).2)
    else (true :: rest, some (i + 1))

/-- `get_next_available_block(is_robot_block)` acting on the chosen side's
flag list. -/
def get_next_available_block (blocks : List Bool) : List Bool × Option Nat :=
  get_next_available_block_aux 0 blocks

/-- `n` successive calls of `get_next_available_block`, threading the flag
list: returns the list of results in call order and the final flag list. -/
def allocRun : List Bool → Nat → List (Option Nat) × List Bool
  | blocks, 0 => ([], blocks)
  | blocks, n + 1 =>
    ((get_next_available_block blocks).2
        :: (allocRun (get_next_available_block blocks).1 n).1,
     (allocRun (get_next_available_block blocks).1 n).2)

/-! ### Servo motion (`move_servo_smoothly`, `move_arm_to_position`)

Servo angles are embedded as rationals (exact arithmetic; the claim about the
final interpolation step is stated for exact arithmetic).  The actuator is a
map from channel number to last commanded angle; `kit.servo[n].angle = a`
becomes `setServo`, and the query of the current angle becomes reading the
map. -/

def SERVO_BASE : Nat := 0
def SERVO_SHOULDER : Nat := 1
def SERVO_ELBOW : Nat := 2
def SERVO_WRIST_PITCH : Nat := 3
def SERVO_WRIST_ROLL : Nat := 4
def SERVO_CLAW : Nat := 5

/-- Last commanded angle of each servo channel. -/
def ServoState : Type := Nat → ℚ

/-- `kit.servo[n].angle = a`. -/
def setServo (st : ServoState) (n : Nat) (a : ℚ) : ServoState :=
  fun m => if m = n then a else st m

/-- The angles commanded by the loop of `move_servo_smoothly`:
`current + step_size * (step + 1)` for `step in range(steps)`, with
`step_size = (target - current) / steps`. -/
def smooth_angles (current target : ℚ) (steps : Nat) : List ℚ :=
  (List.range steps).map
    (fun (step : Nat) => current + ((target - current) / (steps : ℚ)) * ((step : ℚ) + 1))

/-- `move_servo_smoothly(servo_num, target_angle, steps=...)`: reads the
current angle from the actuator and commands each interpolated angle in
turn. -/
def move_servo_smoothly (st : ServoState) (servo_num : Nat) (target : ℚ)
    (steps : Nat) : ServoState :=
  (smooth_angles (st servo_num) target steps).foldl
    (fun s a => setServo s servo_num a) st

/-- A pose: target angles for the five arm joints (`board_positions`,
`home_position`, storage entries all have this shape). -/
structure Pose where
  base : ℚ
  shoulder : ℚ
  elbow : ℚ
  wrist_pitch : ℚ
  wrist_roll : ℚ

/-- `move_arm_to_position(position, smooth)`: smooth moves each of the five
joints in turn with the default `steps=10`; otherwise sets each angle
directly. -/
def move_arm_to_position (st : ServoState) (p : Pose) (smooth : Bool) :
    ServoState :=
  if smooth then
    let st1 := move_servo_smoothly st SERVO_BASE p.base 10
    let st2 := move_servo_smoothly st1 SERVO_SHOULDER p.shoulder 10
    let st3 := move_servo_smoothly st2 SERVO_ELBOW p.elbow 10
    let st4 := move_servo_smoothly st3 SERVO_WRIST_PITCH p.wrist_pitch 10
    move_servo_smoothly st4 SERVO_WRIST_ROLL p.wrist_roll 10
  else
    setServo (setServo (setServo (setServo (setServo st
      SERVO_BASE p.base)
      SERVO_SHOULDER p.shoulder)
      SERVO_ELBOW p.elbow)
      SERVO_WRIST_PITCH p.wrist_pitch)
      SERVO_WRIST_ROLL p.wrist_roll

/-! ### Perception wait and the `run_game` orchestrator

`analyze_board_state` either fails (`None`) or replaces the global `board`
with the detected grid; a poll is therefore an `Option Board`.
`wait_for_player_move` polls until the timeout; the number of polls that fit
in the timeout is the length of the observation list.  `detect_player_move`
compares the loop's snapshot `prev_board` with the freshly detected board,
returning the first cell (row-major) that changed from 0 to 1. -/

/-- `detect_player_move(prev_board)` on one poll: `None` when analysis fails,
else the first row-major cell with `prev == 0` and `current == 1`. -/
def detect_player_move (prev : Board) (obs : Option Board) :
    Option (Fin 3 × Fin 3) :=
  match obs with
  | none => none
  | some cur => cells.find? (fun rc => prev rc.1 rc.2 == 0 && cur rc.1 rc.2 == 1)

/-- `wait_for_player_move(prev_board)`: repeated polls against the fixed
snapshot `prev`; a successful analysis also replaces the global `board`
(threaded as the first component), a failed analysis leaves it alone.
Returns the board after the last analysis and the detected move, `none` on
timeout (observation list exhausted). -/
def wait_for_player_move (prev : Board) :
    Board → List (Option Board) → Board × Option (Fin 3 × Fin 3)
  | b, [] => (b, none)
  | b, none :: rest => wait_for_player_move prev b rest
  | _, some cur :: rest =>
    match cells.find? (fun rc => prev rc.1 rc.2 == 0 && cur rc.1 rc.2 == 1) with
    | some rc => (cur, some rc)
    | none => wait_for_player_move prev cur rest

/-- The physical robot actions `run_game` can trigger on a turn:
`get_robot_move` selection, `pick_block`, `place_block`. -/
inductive RobotAction
  | chooseMove
  | pickBlock
  | placeBlock
  deriving DecidableEq

/-- How a `run_game` session ends (or why the model ran out of scripted
input). -/
inductive Outcome
  | scanFailed
  | boardNotEmptyDeclined
  | aborted
  | playerWins
  | robotWins
  | draw
  | outOfBlocks
  | noMove
  | outOfInput
  deriving DecidableEq

/-- Scripted external input for one iteration of the `while not game_over`
loop: the perception polls of the player wait, and the outcomes of the two
`random.shuffle` calls inside `get_robot_move`. -/
structure TurnInput where
  polls : List (Option Board)
  corners : List (Fin 3 × Fin 3)
  edges : List (Fin 3 × Fin 3)

/-- The `while not game_over` loop of `run_game`, threading the board and the
robot side's block flags, and recording the robot actions performed.
Mirrors the source order: wait for the player, check player win then draw,
choose the robot move, `pick_block` (which consumes an inventory slot and
fails with no arm action when none is left), `place_block`, commit
`board[row, col] = 2`, check robot win then draw. -/
def run_game_loop :
    Board → List Bool → List TurnInput → Outcome × List RobotAction × Board
  | b, _, [] => (Outcome.outOfInput, [], b)
  | b, redUsed, t :: rest =>
    match wait_for_player_move b b t.polls with
    | (b1, none) => (Outcome.aborted, [], b1)
    | (b1, some _) =>
      if check_win b1 1 then (Outcome.playerWins, [], b1)
      else if check_draw b1 then (Outcome.draw, [], b1)
      else
        match get_robot_move b1 t.corners t.edges with
        | (b2, none) => (Outcome.noMove, [RobotAction.chooseMove], b2)
        | (b2, some (r, c)) =>
          match get_next_available_block redUsed with
          | (_, none) => (Outcome.outOfBlocks, [RobotAction.chooseMove], b2)
          | (redUsed1, some _) =>
            let b3 := setCell b2 r c 2
            if check_win b3 2 then
              (Outcome.robotWins,
               [RobotAction.chooseMove, RobotAction.pickBlock, RobotAction.placeBlock], b3)
            else if check_draw b3 then
              (Outcome.draw,
               [RobotAction.chooseMove, RobotAction.pickBlock, RobotAction.placeBlock], b3)
            else
              match run_game_loop b3 redUsed1 rest with
              | (o, acts, bf) =>
                (o, RobotAction.chooseMove :: RobotAction.pickBlock ::
                    RobotAction.placeBlock :: acts, bf)

/-- `np.sum(board)` over the nine cells. -/
def boardSum (b : Board) : Nat :=
  (cells.map (fun rc => b rc.1 rc.2)).sum

/-- Scripted external input for one `run_game` session: the initial
`analyze_board_state` result, the answer to the "Continue anyway?" prompt
when the initial board is not empty, and the per-turn inputs. -/
structure GameInput where
  initialScan : Option Board
  continueAnyway : Bool
  turns : List TurnInput

/-- `run_game()`: reset, initial scan (failure returns immediately), the
not-empty prompt, then the game loop with a fresh board and a fresh red
inventory of five blocks. -/
def run_game (inp : GameInput) : Outcome × List RobotAction × Board :=
  match inp.initialScan with
  | none => (Outcome.scanFailed, [], emptyBoard)
  | some b0 =>
    if boardSum b0 > 0 && !inp.continueAnyway then
      (Outcome.boardNotEmptyDeclined, [], b0)
    else run_game_loop b0 (List.replicate 5 false) inp.turns

/-! ## Lemmas about the move-selection scan -/

theorem setCell_revert (b : Board) (r c : Fin 3) (m : Nat) (h : b r c = 0) :
    setCell (setCell b r c m) r c 0 = b := by
  funext i j
  by_cases hi : i = r
  · by_cases hj : j = c
    · subst hi; subst hj; simp [setCell, h]
    · simp [setCell, hj]
  · simp [setCell, hi]

theorem scanTrial_fst (m : Nat) (l : List (Fin 3 × Fin 3)) :
    ∀ b : Board, (scanTrial m b l).1 = b := by
  induction l with
  | nil => intro b; rfl
  | cons rc rest ih =>
    intro b
    obtain ⟨r, c⟩ := rc
    simp only [scanTrial]
    by_cases h : b r c = 0
    · rw [if_pos h]
      by_cases hw : check_win (setCell b r c m) m = true
      · rw [if_pos hw]
        exact setCell_revert b r c m h
      · rw [if_neg hw, setCell_revert b r c m h]
        exact ih b
    · rw [if_neg h]
      exact ih b

theorem scanTrial_snd (m : Nat) (l : List (Fin 3 × Fin 3)) :
    ∀ b : Board, (scanTrial m b l).2 = l.find? (trialPred b m) := by
  induction l with
  | nil => intro b; rfl
  | cons rc rest ih =>
    intro b
    obtain ⟨r, c⟩ := rc
    simp only [scanTrial, List.find?]
    by_cases h : b r c = 0
    · by_cases hw : check_win (setCell b r c m) m = true
      · rw [if_pos h, if_pos hw]
        have hp : trialPred b m (r, c) = true := by
          simp [trialPred, h, hw]
        simp [hp]
      · rw [if_pos h, if_neg hw, setCell_revert b r c m h]
        have hp : trialPred b m (r, c) = false := by
          simp [trialPred, h, hw]
        simp [hp, ih b]
    · rw [if_neg h]
      have hp : trialPred b m (r, c) = false := by
        simp [trialPred, h]
      simp [hp, ih b]

theorem scanTrial_pair (m : Nat) (l : List (Fin 3 × Fin 3)) (b : Board) :
    scanTrial m b l = (b, l.find? (trialPred b m)) :=
  Prod.ext (scanTrial_fst m l b) (scanTrial_snd m l b)

/-- `get_robot_move` restores the board and computes `choose_move`. -/
theorem get_robot_move_eq (b : Board) (corners edges : List (Fin 3 × Fin 3)) :
    get_robot_move b corners edges = (b, choose_move b corners edges) := by
  unfold get_robot_move choose_move
  rw [scanTrial_pair 2 cells b]
  cases cells.find? (trialPred b 2) with
  | some rc => rfl
  | none =>
    simp only
    rw [scanTrial_pair 1 cells b]
    cases cells.find? (trialPred b 1) with
    | some rc => rfl
    | none =>
      by_cases hc : b 1 1 = 0
      · simp [hc]
      · cases hcf : corners.find? (fun rc => b rc.1 rc.2 == 0) with
        | some rc => simp [hc, hcf]
        | none =>
          cases hef : edges.find? (fun rc => b rc.1 rc.2 == 0) with
          | some rc => simp [hc, hcf, hef]
          | none => simp [hc, hcf, hef]

/-- Whatever cell `choose_move` selects was empty on the input board. -/
theorem choose_move_is_empty (b : Board) (corners edges : List (Fin 3 × Fin 3))
    (rc : Fin 3 × Fin 3) (h : choose_move b corners edges = some rc) :
    b rc.1 rc.2 = 0 := by
  unfold choose_move at h
  cases h1 : cells.find? (trialPred b 2) with
  | some rc1 =>
    rw [h1] at h
    simp only [Option.some.injEq] at h
    subst h
    have hp := List.find?_some h1
    simp only [trialPred, Bool.and_eq_true, beq_iff_eq] at hp
    exact hp.1
  | none =>
    rw [h1] at h
    simp only at h
    cases h2 : cells.find? (trialPred b 1) with
    | some rc1 =>
      rw [h2] at h
      simp only [Option.some.injEq] at h
      subst h
      have hp := List.find?_some h2
      simp only [trialPred, Bool.and_eq_true, beq_iff_eq] at hp
      exact hp.1
    | none =>
      rw [h2] at h
      simp only at h
      by_cases hc : b 1 1 = 0
      · rw [if_pos hc] at h
        simp only [Option.some.injEq] at h
        subst h
        exact hc
      · rw [if_neg hc] at h
        cases h3 : corners.find? (fun x => b x.1 x.2 == 0) with
        | some rc1 =>
          rw [h3] at h
          simp only [Option.some.injEq] at h
          subst h
          have hp := List.find?_some h3
          simpa using hp
        | none =>
          rw [h3] at h
          simp only at h
          cases h4 : edges.find? (fun x => b x.1 x.2 == 0) with
          | some rc1 =>
            rw [h4] at h
            simp only [Option.some.injEq] at h
            subst h
            have hp := List.find?_some h4
            simpa using hp
          | none =>
            rw [h4] at h
            exact absurd h (by simp)

/-- Every cell is the center, a corner, or an edge. -/
theorem cell_classification :
    ∀ x : Fin 3 × Fin 3, x = (1, 1) ∨ x ∈ cornerList ∨ x ∈ edgeList := by
  decide

/-- When the shuffled corner and edge lists are permutations of the source
lists, `choose_move` only declines to move on a full board. -/
theorem choose_move_ne_none (b : Board) (corners edges : List (Fin 3 × Fin 3))
    (hc : corners.Perm cornerList) (he : edges.Perm edgeList)
    (r c : Fin 3) (hrc : b r c = 0) :
    choose_move b corners edges ≠ none := by
  intro h
  unfold choose_move at h
  cases h1 : cells.find? (trialPred b 2) with
  | some rc1 => rw [h1] at h; simp at h
  | none =>
    rw [h1] at h
    simp only at h
    cases h2 : cells.find? (trialPred b 1) with
    | some rc1 => rw [h2] at h; simp at h
    | none =>
      rw [h2] at h
      simp only at h
      by_cases hcen : b 1 1 = 0
      · rw [if_pos hcen] at h; simp at h
      · rw [if_neg hcen] at h
        cases h3 : corners.find? (fun x => b x.1 x.2 == 0) with
        | some rc1 => rw [h3] at h; simp at h
        | none =>
          rw [h3] at h
          simp only at h
          cases h4 : edges.find? (fun x => b x.1 x.2 == 0) with
          | some rc1 => rw [h4] at h; simp at h
          | none =>
            have hcorner : ∀ x ∈ cornerList, b x.1 x.2 ≠ 0 := by
              intro x hx
              have hx' : x ∈ corners := (hc.mem_iff).2 hx
              have := List.find?_eq_none.1 h3 x hx'
              simpa using this
            have hedge : ∀ x ∈ edgeList, b x.1 x.2 ≠ 0 := by
              intro x hx
              have hx' : x ∈ edges := (he.mem_iff).2 hx
              have := List.find?_eq_none.1 h4 x hx'
              simpa using this
            rcases cell_classification (r, c) with hx | hx | hx
            · rw [Prod.mk.injEq] at hx
              rw [hx.1, hx.2] at hrc
              exact hcen hrc
            · exact hcorner (r, c) hx hrc
            · exact hedge (r, c) hx hrc

theorem fin3_all (p : Fin 3 → Prop) (h0 : p 0) (h1 : p 1) (h2 : p 2) :
    ∀ i, p i := by
  intro i
  fin_cases i <;> assumption

/-! ## Claim theorems -/

/-- C1 (counterexample): on the board `[[1,1,0],[2,2,0],[0,0,0]]` with the
robot to move, `get_robot_move` does **not** return `(0, 2)`: the immediate-win
tier fires first at `(1, 2)` (completing row 1 for the robot), so the claimed
blocking move is never reached. -/
theorem get_robot_move_block_scenario_counterexample :
    (get_robot_move (mkBoard [[1, 1, 0], [2, 2, 0], [0, 0, 0]]) cornerList edgeList).2
        = some (1, 2)
    ∧ (get_robot_move (mkBoard [[1, 1, 0], [2, 2, 0], [0, 0, 0]]) cornerList edgeList).2
        ≠ some (0, 2) := by
  decide

/-- C1 (amended): on the board `[[1,1,0],[2,2,0],[0,0,0]]` with the robot to
move, `get_robot_move` returns `(1, 2)` — its own immediate win completing
row 1 — for every outcome of the corner and edge shuffles; the win tier
precedes the block tier, so the block at `(0, 2)` is not chosen. -/
theorem get_robot_move_block_scenario_wins_instead
    (corners edges : List (Fin 3 × Fin 3)) :
    (get_robot_move (mkBoard [[1, 1, 0], [2, 2, 0], [0, 0, 0]]) corners edges).2
      = some (1, 2) := by
  rw [get_robot_move_eq]
  have h1 : cells.find? (trialPred (mkBoard [[1, 1, 0], [2, 2, 0], [0, 0, 0]]) 2)
      = some (1, 2) := by decide
  simp [choose_move, h1]

/-- C2: `get_robot_move` returns the board it was given: every speculative
trial placement made during the win/block lookahead is reverted before
returning. -/
theorem get_robot_move_preserves_board (b : Board)
    (corners edges : List (Fin 3 × Fin 3)) :
    (get_robot_move b corners edges).1 = b := by
  rw [get_robot_move_eq]

/-- C3: `check_win board side` (for `side` the player or robot mark) is true
iff some row, column, or diagonal is uniformly `side`; in particular it is
false for both sides on the all-empty board. -/
theorem check_win_iff_line (b : Board) (side : Nat) (h : side = 1 ∨ side = 2) :
    (check_win b side = true ↔
      (∃ r : Fin 3, ∀ c : Fin 3, b r c = side) ∨
      (∃ c : Fin 3, ∀ r : Fin 3, b r c = side) ∨
      (b 0 0 = side ∧ b 1 1 = side ∧ b 2 2 = side) ∨
      (b 0 2 = side ∧ b 1 1 = side ∧ b 2 0 = side))
    ∧ check_win emptyBoard side = false := by
  constructor
  · constructor
    · intro hw
      simp only [check_win, rowAll, colAll, Bool.or_eq_true, Bool.and_eq_true,
        beq_iff_eq] at hw
      rcases hw with (((((((hw | hw) | hw) | hw) | hw) | hw) | hw) | hw)
      · exact Or.inl ⟨0, fin3_all _ hw.1.1 hw.1.2 hw.2⟩
      · exact Or.inl ⟨1, fin3_all _ hw.1.1 hw.1.2 hw.2⟩
      · exact Or.inl ⟨2, fin3_all _ hw.1.1 hw.1.2 hw.2⟩
      · exact Or.inr (Or.inl ⟨0, fin3_all _ hw.1.1 hw.1.2 hw.2⟩)
      · exact Or.inr (Or.inl ⟨1, fin3_all _ hw.1.1 hw.1.2 hw.2⟩)
      · exact Or.inr (Or.inl ⟨2, fin3_all _ hw.1.1 hw.1.2 hw.2⟩)
      · exact Or.inr (Or.inr (Or.inl ⟨hw.1.1, hw.1.2, hw.2⟩))
      · exact Or.inr (Or.inr (Or.inr ⟨hw.1.1, hw.1.2, hw.2⟩))
    · intro hs
      simp only [check_win, rowAll, colAll, Bool.or_eq_true, Bool.and_eq_true,
        beq_iff_eq]
      rcases hs with (⟨r, hr⟩ | ⟨c, hc⟩ | hs | hs)
      · fin_cases r
        · exact Or.inl (Or.inl (Or.inl (Or.inl (Or.inl (Or.inl
            (Or.inl ⟨⟨hr 0, hr 1⟩, hr 2⟩))))))
        · exact Or.inl (Or.inl (Or.inl (Or.inl (Or.inl (Or.inl
            (Or.inr ⟨⟨hr 0, hr 1⟩, hr 2⟩))))))
        · exact Or.inl (Or.inl (Or.inl (Or.inl (Or.inl
            (Or.inr ⟨⟨hr 0, hr 1⟩, hr 2⟩)))))
      · fin_cases c
        · exact Or.inl (Or.inl (Or.inl (Or.inl (Or.inr ⟨⟨hc 0, hc 1⟩, hc 2⟩))))
        · exact Or.inl (Or.inl (Or.inl (Or.inr ⟨⟨hc 0, hc 1⟩, hc 2⟩)))
        · exact Or.inl (Or.inl (Or.inr ⟨⟨hc 0, hc 1⟩, hc 2⟩))
      · exact Or.inl (Or.inr ⟨⟨hs.1, hs.2.1⟩, hs.2.2⟩)
      · exact Or.inr ⟨⟨hs.1, hs.2.1⟩, hs.2.2⟩
  · rcases h with h | h <;> subst h <;> decide

/-- Witness for C3 at a concrete board and side. -/
theorem check_win_iff_line_witness :
    (check_win (mkBoard [[1, 1, 1], [2, 2, 0], [0, 0, 0]]) 1 = true ↔
      (∃ r : Fin 3, ∀ c : Fin 3, mkBoard [[1, 1, 1], [2, 2, 0], [0, 0, 0]] r c = 1) ∨
      (∃ c : Fin 3, ∀ r : Fin 3, mkBoard [[1, 1, 1], [2, 2, 0], [0, 0, 0]] r c = 1) ∨
      (mkBoard [[1, 1, 1], [2, 2, 0], [0, 0, 0]] 0 0 = 1 ∧
        mkBoard [[1, 1, 1], [2, 2, 0], [0, 0, 0]] 1 1 = 1 ∧
        mkBoard [[1, 1, 1], [2, 2, 0], [0, 0, 0]] 2 2 = 1) ∨
      (mkBoard [[1, 1, 1], [2, 2, 0], [0, 0, 0]] 0 2 = 1 ∧
        mkBoard [[1, 1, 1], [2, 2, 0], [0, 0, 0]] 1 1 = 1 ∧
        mkBoard [[1, 1, 1], [2, 2, 0], [0, 0, 0]] 2 0 = 1))
    ∧ check_win emptyBoard 1 = false :=
  check_win_iff_line (mkBoard [[1, 1, 1], [2, 2, 0], [0, 0, 0]]) 1 (Or.inl rfl)

/-- C4: whenever some empty cell gives the robot an immediate win,
`get_robot_move` returns the first such cell in the row-major scan order
(`cells.find?`), for every shuffle outcome; concretely, on
`[[2,0,0],[0,2,0],[0,0,0]]` it returns `(2, 2)`, completing the main
diagonal. -/
theorem get_robot_move_immediate_win_first :
    (∀ (b : Board) (corners edges : List (Fin 3 × Fin 3)) (rc : Fin 3 × Fin 3),
        cells.find? (trialPred b 2) = some rc →
        (get_robot_move b corners edges).2 = some rc)
    ∧ ∀ corners edges : List (Fin 3 × Fin 3),
        (get_robot_move (mkBoard [[2, 0, 0], [0, 2, 0], [0, 0, 0]]) corners edges).2
          = some (2, 2) := by
  constructor
  · intro b corners edges rc h
    rw [get_robot_move_eq]
    simp [choose_move, h]
  · intro corners edges
    rw [get_robot_move_eq]
    have h1 : cells.find? (trialPred (mkBoard [[2, 0, 0], [0, 2, 0], [0, 0, 0]]) 2)
        = some (2, 2) := by decide
    simp [choose_move, h1]

/-- Witness for C4 at the diagonal-win board. -/
theorem get_robot_move_immediate_win_first_witness :
    (get_robot_move (mkBoard [[2, 0, 0], [0, 2, 0], [0, 0, 0]]) cornerList edgeList).2
      = some (2, 2) :=
  get_robot_move_immediate_win_first.1 (mkBoard [[2, 0, 0], [0, 2, 0], [0, 0, 0]])
    cornerList edgeList (2, 2) (by decide)

/-- C5: for every board and every shuffle outcome, `get_robot_move` only ever
returns an empty cell; when the board has an empty cell it returns one, and it
returns `none` only on a full board. -/
theorem get_robot_move_returns_empty_cell (b : Board)
    (corners edges : List (Fin 3 × Fin 3))
    (hc : corners.Perm cornerList) (he : edges.Perm edgeList) :
    (∀ rc : Fin 3 × Fin 3,
        (get_robot_move b corners edges).2 = some rc → b rc.1 rc.2 = 0)
    ∧ ((∃ r c : Fin 3, b r c = 0) →
        ∃ rc : Fin 3 × Fin 3,
          (get_robot_move b corners edges).2 = some rc ∧ b rc.1 rc.2 = 0)
    ∧ ((get_robot_move b corners edges).2 = none → ∀ r c : Fin 3, b r c ≠ 0) := by
  have key := get_robot_move_eq b corners edges
  refine ⟨?_, ?_, ?_⟩
  · intro rc h
    rw [key] at h
    exact choose_move_is_empty b corners edges rc h
  · rintro ⟨r, c, hrc⟩
    rw [key]
    cases hcm : choose_move b corners edges with
    | none => exact absurd hcm (choose_move_ne_none b corners edges hc he r c hrc)
    | some rc => exact ⟨rc, rfl, choose_move_is_empty b corners edges rc hcm⟩
  · intro h r c hrc
    rw [key] at h
    exact choose_move_ne_none b corners edges hc he r c hrc h

/-- Witness for C5 on the empty board with the unshuffled lists. -/
theorem get_robot_move_returns_empty_cell_witness :
    (∀ rc : Fin 3 × Fin 3,
        (get_robot_move emptyBoard cornerList edgeList).2 = some rc →
          emptyBoard rc.1 rc.2 = 0)
    ∧ ((∃ r c : Fin 3, emptyBoard r c = 0) →
        ∃ rc : Fin 3 × Fin 3,
          (get_robot_move emptyBoard cornerList edgeList).2 = some rc ∧
            emptyBoard rc.1 rc.2 = 0)
    ∧ ((get_robot_move emptyBoard cornerList edgeList).2 = none →
        ∀ r c : Fin 3, emptyBoard r c ≠ 0) :=
  get_robot_move_returns_empty_cell emptyBoard cornerList edgeList
    (List.Perm.refl _) (List.Perm.refl _)

/-- C8: `check_draw` is true iff no empty cell remains; a board with an empty
cell is never reported as a draw (winners are not excluded — that is the
caller's job). -/
theorem check_draw_iff_full (b : Board) :
    (check_draw b = true ↔ ∀ r c : Fin 3, b r c ≠ 0)
    ∧ (∀ r c : Fin 3, b r c = 0 → check_draw b = false) := by
  constructor
  · simp [check_draw]
  · intro r c h
    simp only [check_draw, decide_eq_false_iff_not]
    push_neg
    exact ⟨r, c, h⟩

/-- Witness for C8: the empty board is not a draw. -/
theorem check_draw_iff_full_witness : check_draw emptyBoard = false :=
  (check_draw_iff_full emptyBoard).2 0 0 rfl

/-! ## Lemmas about the piece inventory -/

theorem gnab_aux_all_true :
    ∀ k i : Nat, get_next_available_block_aux i (List.replicate k true)
      = (List.replicate k true, none) := by
  intro k
  induction k with
  | zero => intro i; rfl
  | succ k ih =>
    intro i
    simp [List.replicate_succ, get_next_available_block_aux, ih (i + 1)]

theorem gnab_aux_first_false :
    ∀ (k i : Nat) (rest : List Bool),
      get_next_available_block_aux i (List.replicate k true ++ false :: rest)
        = (List.replicate k true ++ true :: rest, some (i + k + 1)) := by
  intro k
  induction k with
  | zero =>
    intro i rest
    simp [get_next_available_block_aux]
  | succ k ih =>
    intro i rest
    rw [List.replicate_succ, List.cons_append]
    show (true :: (get_next_available_block_aux (i + 1)
            (List.replicate k true ++ false :: rest)).1,
          (get_next_available_block_aux (i + 1)
            (List.replicate k true ++ false :: rest)).2)
        = (true :: (List.replicate k true ++ true :: rest), some (i + (k + 1) + 1))
    rw [ih (i + 1) rest]
    have harith : i + 1 + k + 1 = i + (k + 1) + 1 := by omega
    rw [harith]

theorem gnab_step (k m : Nat) :
    get_next_available_block (List.replicate k true ++ List.replicate (m + 1) false)
      = (List.replicate (k + 1) true ++ List.replicate m false, some (k + 1)) := by
  unfold get_next_available_block
  rw [List.replicate_succ, gnab_aux_first_false k 0 (List.replicate m false)]
  simp [List.replicate_succ', List.append_assoc]

theorem allocRun_replicate :
    ∀ m k : Nat,
      allocRun (List.replicate k true ++ List.replicate m false) (m + 1)
        = ((List.range m).map (fun i => some (k + i + 1)) ++ [none],
           List.replicate (k + m) true) := by
  intro m
  induction m with
  | zero =>
    intro k
    simp only [List.replicate, List.append_nil, allocRun]
    rw [show get_next_available_block (List.replicate k true)
        = (List.replicate k true, none) from gnab_aux_all_true k 0]
    simp [allocRun]
  | succ m ih =>
    intro k
    show ((get_next_available_block
            (List.replicate k true ++ List.replicate (m + 1) false)).2
          :: (allocRun (get_next_available_block
                (List.replicate k true ++ List.replicate (m + 1) false)).1 (m + 1)).1,
        (allocRun (get_next_available_block
            (List.replicate k true ++ List.replicate (m + 1) false)).1 (m + 1)).2)
      = _
    rw [gnab_step k m]
    dsimp only
    rw [ih (k + 1)]
    dsimp only
    have hmap : (List.range (m + 1)).map (fun i => some (k + i + 1))
        = some (k + 1) :: (List.range m).map (fun i => some (k + 1 + i + 1)) := by
      rw [List.range_succ_eq_map, List.map_cons, List.map_map]
      have hf : (fun i => some (k + i + 1)) ∘ Nat.succ
          = fun i => some (k + 1 + i + 1) := by
        funext i
        simp only [Function.comp]
        congr 1
        omega
      rw [hf]
    rw [hmap, List.cons_append]
    have hrep : k + 1 + m = k + (m + 1) := by omega
    rw [hrep]

/-- C6: on a freshly reset inventory of `N` slots, `N` successive calls of
`get_next_available_block` return the slot identifiers `1, …, N` in scan
order (each exactly once), the `(N+1)`-th call returns `none`, the final flag
list marks every slot used, and a call never clears a used flag (no slot is
released within a session). -/
theorem allocation_one_shot :
    (∀ N : Nat,
      allocRun (List.replicate N false) (N + 1)
        = ((List.range N).map (fun i => some (i + 1)) ++ [none],
           List.replicate N true))
    ∧ (∀ (blocks : List Bool) (i : Nat), blocks.getD i false = true →
        ((get_next_available_block blocks).1).getD i false = true) := by
  constructor
  · intro N
    have h := allocRun_replicate N 0
    have hmap : (List.range N).map (fun i => some (0 + i + 1))
        = (List.range N).map (fun i => some (i + 1)) := by
      apply List.map_congr_left
      intro a _
      congr 1
      omega
    simp only [List.replicate, List.nil_append, Nat.zero_add, hmap] at h
    exact h
  · intro blocks
    have aux : ∀ (l : List Bool) (i j : Nat), l.getD j false = true →
        ((get_next_available_block_aux i l).1).getD j false = true := by
      intro l
      induction l with
      | nil =>
        intro i j h
        exact h
      | cons used rest ih =>
        intro i j h
        cases used with
        | true =>
          simp only [get_next_available_block_aux, if_true]
          cases j with
          | zero => simp
          | succ j =>
            simp only [List.getD_cons_succ] at h ⊢
            exact ih (i + 1) j h
        | false =>
          simp only [get_next_available_block_aux]
          cases j with
          | zero => simp
          | succ j =>
            simp only [List.getD_cons_succ] at h ⊢
            simpa using h
    exact aux blocks 0

/-- Witness for C6: a used slot stays used across a call. -/
theorem allocation_one_shot_witness :
    (([true, false] : List Bool).getD 0 false = true)
    ∧ ((get_next_available_block [true, false]).1).getD 0 false = true :=
  ⟨rfl, allocation_one_shot.2 [true, false] 0 rfl⟩

/-! ## Lemmas about servo motion -/

theorem foldl_setServo_ne (n m : Nat) (hnm : m ≠ n) :
    ∀ (l : List ℚ) (st : ServoState),
      (l.foldl (fun s a => setServo s n a) st) m = st m := by
  intro l
  induction l with
  | nil => intro st; rfl
  | cons a l ih =>
    intro st
    simp only [List.foldl_cons]
    rw [ih (setServo st n a)]
    simp [setServo, hnm]

/-- A smooth move leaves every other servo's last commanded angle alone. -/
theorem move_servo_smoothly_other (st : ServoState) (n : Nat) (t : ℚ)
    (steps : Nat) (m : Nat) (hnm : m ≠ n) :
    move_servo_smoothly st n t steps m = st m :=
  foldl_setServo_ne n m hnm _ st

/-- With at least one step, the last angle commanded by the interpolation
loop is exactly the target (in exact arithmetic):
`current + ((target - current)/steps) * steps = target`. -/
theorem move_servo_smoothly_target (st : ServoState) (n : Nat) (t : ℚ)
    (steps : Nat) (h : steps ≠ 0) :
    move_servo_smoothly st n t steps n = t := by
  obtain ⟨k, rfl⟩ : ∃ k, steps = k + 1 := ⟨steps - 1, by omega⟩
  unfold move_servo_smoothly smooth_angles
  rw [List.range_succ, List.map_append, List.foldl_append]
  simp only [List.map_cons, List.map_nil, List.foldl_cons, List.foldl_nil,
    setServo, if_pos rfl]
  have hk : ((k : ℚ) + 1) ≠ 0 := by positivity
  push_cast
  rw [div_mul_cancel₀ _ hk]
  ring

/-- C9: the interpolation loop of `move_servo_smoothly` ends with the moved
servo commanded exactly to its target (for any nonzero step count), and
`move_arm_to_position` — smooth or direct — leaves every joint named in the
pose commanded to the pose's target angle. -/
theorem arm_motion_reaches_targets :
    (∀ (st : ServoState) (n : Nat) (t : ℚ) (steps : Nat), steps ≠ 0 →
        move_servo_smoothly st n t steps n = t)
    ∧ (∀ (st : ServoState) (p : Pose) (smooth : Bool),
        move_arm_to_position st p smooth SERVO_BASE = p.base ∧
        move_arm_to_position st p smooth SERVO_SHOULDER = p.shoulder ∧
        move_arm_to_position st p smooth SERVO_ELBOW = p.elbow ∧
        move_arm_to_position st p smooth SERVO_WRIST_PITCH = p.wrist_pitch ∧
        move_arm_to_position st p smooth SERVO_WRIST_ROLL = p.wrist_roll) := by
  constructor
  · intro st n t steps h
    exact move_servo_smoothly_target st n t steps h
  · intro st p smooth
    cases smooth with
    | false =>
      refine ⟨?_, ?_, ?_, ?_, ?_⟩ <;>
        simp [move_arm_to_position, setServo, SERVO_BASE, SERVO_SHOULDER,
          SERVO_ELBOW, SERVO_WRIST_PITCH, SERVO_WRIST_ROLL]
    | true =>
      refine ⟨?_, ?_, ?_, ?_, ?_⟩ <;>
        simp [move_arm_to_position, move_servo_smoothly_other,
          move_servo_smoothly_target, SERVO_BASE, SERVO_SHOULDER,
          SERVO_ELBOW, SERVO_WRIST_PITCH, SERVO_WRIST_ROLL]

/-- Witness for C9: a ten-step smooth move from 0 lands exactly on 90. -/
theorem arm_motion_reaches_targets_witness :
    move_servo_smoothly (fun _ => 0) 0 90 10 0 = 90 :=
  arm_motion_reaches_targets.1 (fun _ => 0) 0 90 10 (by norm_num)

/-! ## Lemmas about the orchestrator -/

/-- If no poll ever shows a cell changed from empty to a player mark relative
to the snapshot, the wait loop runs out of polls and reports no move. -/
theorem wait_for_player_move_none (prev : Board) :
    ∀ polls : List (Option Board),
      (∀ cur : Board, some cur ∈ polls →
        cells.find? (fun rc => prev rc.1 rc.2 == 0 && cur rc.1 rc.2 == 1) = none) →
      ∀ b : Board, (wait_for_player_move prev b polls).2 = none := by
  intro polls
  induction polls with
  | nil => intro _ b; rfl
  | cons obs rest ih =>
    intro h b
    cases obs with
    | none => exact ih (fun cur hc => h cur (List.mem_cons_of_mem _ hc)) b
    | some cur =>
      have hf := h cur (List.mem_cons_self _ _)
      show (match cells.find? (fun rc : Fin 3 × Fin 3 =>
              prev rc.1 rc.2 == 0 && cur rc.1 rc.2 == 1) with
            | some rc => (cur, some rc)
            | none => wait_for_player_move prev cur rest).2 = none
      rw [hf]
      exact ih (fun c hc => h c (List.mem_cons_of_mem _ hc)) cur

/-- C7: if perception reports no empty-to-player change relative to the
snapshot on every poll until the timeout, `wait_for_player_move` reports no
move and `run_game` ends the session as aborted with no robot action — no
move selection, no pick, no place. -/
theorem timeout_aborts_without_robot_action (inp : GameInput) (b0 : Board)
    (t : TurnInput) (rest : List TurnInput)
    (hscan : inp.initialScan = some b0)
    (hstart : boardSum b0 = 0 ∨ inp.continueAnyway = true)
    (hturns : inp.turns = t :: rest)
    (hnochange : ∀ cur : Board, some cur ∈ t.polls →
      ∀ r c : Fin 3, ¬(b0 r c = 0 ∧ cur r c = 1)) :
    (run_game inp).1 = Outcome.aborted ∧ (run_game inp).2.1 = [] := by
  have hfind : ∀ cur : Board, some cur ∈ t.polls →
      cells.find? (fun rc => b0 rc.1 rc.2 == 0 && cur rc.1 rc.2 == 1) = none := by
    intro cur hc
    apply List.find?_eq_none.2
    intro rc _
    have hn := hnochange cur hc rc.1 rc.2
    simp only [Bool.and_eq_true, beq_iff_eq]
    tauto
  have hwait := wait_for_player_move_none b0 t.polls hfind b0
  unfold run_game
  rw [hscan]
  dsimp only
  have hcond : (boardSum b0 > 0 && !inp.continueAnyway) = false := by
    rcases hstart with h | h
    · simp [h]
    · simp [h]
  rw [hcond]
  simp only [Bool.false_eq_true, if_false, hturns]
  cases hw : wait_for_player_move b0 b0 t.polls with
  | mk bw mv =>
    rw [hw] at hwait
    simp only at hwait
    subst hwait
    simp [run_game_loop, hw]

/-- Witness for C7: an all-silent single-poll session aborts with no robot
action. -/
theorem timeout_aborts_without_robot_action_witness :
    (run_game ⟨some emptyBoard, false, [⟨[some emptyBoard], cornerList, edgeList⟩]⟩).1
        = Outcome.aborted
    ∧ (run_game ⟨some emptyBoard, false,
        [⟨[some emptyBoard], cornerList, edgeList⟩]⟩).2.1 = [] :=
  timeout_aborts_without_robot_action _ emptyBoard
    ⟨[some emptyBoard], cornerList, edgeList⟩ [] rfl (Or.inl rfl) rfl
    (by
      intro cur hmem r c hcon
      simp only [List.mem_singleton, Option.some.injEq] at hmem
      subst hmem
      exact absurd hcon.2 (by simp [emptyBoard]))

/-- C10: when the robot's inventory is exhausted at its turn, `pick_block`
fails before any arm motion, the chosen cell is never committed — the final
board is exactly the board after the player's detected move — and the
session ends (out of blocks). -/
theorem exhausted_inventory_keeps_board (b : Board) (redUsed : List Bool)
    (t : TurnInput) (rest : List TurnInput) (b1 : Board) (mv : Fin 3 × Fin 3)
    (hwait : wait_for_player_move b b t.polls = (b1, some mv))
    (hnw : check_win b1 1 = false) (hnd : check_draw b1 = false)
    (hc : t.corners.Perm cornerList) (he : t.edges.Perm edgeList)
    (hex : (get_next_available_block redUsed).2 = none) :
    run_game_loop b redUsed (t :: rest)
      = (Outcome.outOfBlocks, [RobotAction.chooseMove], b1) := by
  have hempty : ∃ r c : Fin 3, b1 r c = 0 := by
    by_contra hno
    push_neg at hno
    have hdr : check_draw b1 = true := by
      simp only [check_draw, decide_eq_true_eq]
      exact hno
    rw [hdr] at hnd
    exact absurd hnd (by simp)
  obtain ⟨r0, c0, h0⟩ := hempty
  have hsome : ∃ rc : Fin 3 × Fin 3,
      choose_move b1 t.corners t.edges = some rc := by
    cases hcm : choose_move b1 t.corners t.edges with
    | none =>
      exact absurd hcm (choose_move_ne_none b1 t.corners t.edges hc he r0 c0 h0)
    | some rc => exact ⟨rc, rfl⟩
  obtain ⟨⟨r, c⟩, hrm⟩ := hsome
  simp only [run_game_loop]
  rw [hwait]
  simp only [hnw, hnd, Bool.false_eq_true, if_false]
  rw [get_robot_move_eq b1 t.corners t.edges, hrm]
  cases hg : get_next_available_block redUsed with
  | mk red2 o =>
    rw [hg] at hex
    simp only at hex
    subst hex
    simp [hg]

/-- Witness for C10: a session whose player move is detected and whose red
inventory is fully used ends out-of-blocks with the board untouched by the
robot. -/
theorem exhausted_inventory_keeps_board_witness :
    run_game_loop emptyBoard (List.replicate 5 true)
        (⟨[some (mkBoard [[1, 0, 0], [0, 0, 0], [0, 0, 0]])], cornerList, edgeList⟩ :: [])
      = (Outcome.outOfBlocks, [RobotAction.chooseMove],
         mkBoard [[1, 0, 0], [0, 0, 0], [0, 0, 0]]) :=
  exhausted_inventory_keeps_board emptyBoard (List.replicate 5 true)
    ⟨[some (mkBoard [[1, 0, 0], [0, 0, 0], [0, 0, 0]])], cornerList, edgeList⟩ []
    (mkBoard [[1, 0, 0], [0, 0, 0], [0, 0, 0]]) (0, 0)
    (by decide) (by decide) (by decide)
    (List.Perm.refl _) (List.Perm.refl _) (by decide)

end TTTRobot
